import Mathlib

/-!
Verification of the getopt library (src/getopt.go).

Go strings are modelled as their lists of characters (`Str`), which is a
faithful model for ASCII data: Go's byte indexing and rune iteration
coincide there.  Go's `map[string]bool` is modelled as an association
list consulted front to back; the code only ever inserts a key it has
checked to be absent, so insertion order is irrelevant to lookups.
A Go runtime panic (index out of range in `build_longs`, or the
deliberate `panic(err)` in `GetOpt`) is modelled by the `GoResult.panic`
constructor; `GoResult.err` models an ordinary returned `error`.
-/

namespace Getopt

abbrev Str := List Char

/-- `OptArg` from src/getopt.go: a parsed option and its argument. -/
structure OptArg where
  Option : Str
  Argument : Str
  deriving DecidableEq

/-- `ParseError` from src/getopt.go.  Absent fields default to the Go
zero values (empty string, `false`). -/
structure ParseError where
  Message : Str
  Opt : Str := []
  Unexpected : Str := []
  Expected : Str := []
  notUsersFault : Bool := false
  deriving DecidableEq

/-- `q` from src/getopt.go: `fmt.Sprintf("%q", s)`, modelled for strings
that need no escaping (all inputs in this development). -/
def q (s : Str) : Str := '"' :: s ++ ['"']

/-- The outcome of a Go function that can return a value, return an
`error`, or panic.  `panic none` is a runtime fault (index out of
range); `panic (some e)` is the deliberate `panic(err)` in `GetOpt`. -/
inductive GoResult (α : Type) where
  | ok : α → GoResult α
  | err : ParseError → GoResult α
  | panic : Option ParseError → GoResult α
  deriving DecidableEq

/-- Front-to-back lookup in the association-list model of a Go map. -/
def mapLookup (t : List (Str × Bool)) (k : Str) : Option Bool :=
  match t with
  | [] => none
  | (k', b) :: rest => if k' = k then some b else mapLookup rest k

/-- `build_shorts` from src/getopt.go, with the accumulated table made
explicit.  Each non-colon character `c` declares `-c`; the flag takes an
argument exactly when the next character of the spec is a colon; a colon
itself is skipped; re-declaring a character is an error. -/
def build_shorts : Str → List (Str × Bool) → Except ParseError (List (Str × Bool))
  | [], acc => .ok acc
  | c :: rest, acc =>
    if c = ':' then build_shorts rest acc
    else if (mapLookup acc ['-', c]).isSome then
      .error { Message := "option specified more than once".data,
               Unexpected := q [c], notUsersFault := true }
    else
      build_shorts rest (acc ++ [(['-', c], decide (rest.head? = some ':'))])

/-- `build_longs` from src/getopt.go, with the accumulated table made
explicit.  An empty entry makes the Go code index `opt[len(opt)-1]` out
of range: modelled as `GoResult.panic none`.  Otherwise a trailing `=`
is stripped and marks the flag as argument-taking, the name is prefixed
with `--`, and re-declaring a key is an error. -/
def build_longs : List Str → List (Str × Bool) → GoResult (List (Str × Bool))
  | [], acc => .ok acc
  | opt :: rest, acc =>
    match opt.getLast? with
    | none => .panic none
    | some last =>
      let stripped := if last = '=' then opt.dropLast else opt
      let key := '-' :: '-' :: stripped
      if (mapLookup acc key).isSome then
        .err { Message := "option specified more than once".data,
               Unexpected := q key, notUsersFault := true }
      else build_longs rest (acc ++ [(key, decide (last = '='))])

/-- Result of `long` from src/getopt.go: `(found, opt, rarg, hasarg, err)`. -/
structure LongResult where
  found : Bool
  opt : Str
  rarg : Str
  hasarg : Bool
  err : Option ParseError
  deriving DecidableEq

/-- `strings.Index(arg, "=")` splitting in `long`: the part before the
first `=` and the part after it; with no `=` the remainder is empty
(indistinguishable, as in the Go code, from a trailing `=`). -/
def splitEq : Str → Str × Str
  | [] => ([], [])
  | c :: rest =>
    if c = '=' then ([], rest)
    else
      let p := splitEq rest
      (c :: p.1, p.2)

/-- `long` from src/getopt.go.  Note that on the "option does not take
an argument" error the Go code returns `found = false` together with
the error value. -/
def long (arg : Str) (longs : List (Str × Bool)) : LongResult :=
  let p := splitEq arg
  match mapLookup longs p.1 with
  | some hasarg =>
    if hasarg = false ∧ p.2 ≠ [] then
      { found := false, opt := [], rarg := [], hasarg := false,
        err := some { Message := "option does not take an argument".data,
                      Opt := p.1, Unexpected := q p.2 } }
    else
      { found := true, opt := p.1, rarg := p.2, hasarg := hasarg, err := none }
  | none => { found := false, opt := [], rarg := [], hasarg := false, err := none }

/-- `short` from src/getopt.go: `(found, opt, hasarg)`. -/
def short (arg : Str) (shorts : List (Str × Bool)) : Bool × Str × Bool :=
  match mapLookup shorts arg with
  | some hasarg => (true, arg, hasarg)
  | none => (false, [], false)

/-- The inner loop of `GetOptSafe` over the characters of a short-option
cluster (the token with its leading dash removed).  Returns the extended
option list, the new pending flag (`skip`), and the new `emitopt`. -/
def doCluster (shorts : List (Str × Bool)) :
    List Char → Str → List OptArg → Except ParseError (List OptArg × Bool × Str)
  | [], emitopt, acc => .ok (acc, false, emitopt)
  | c :: rest, emitopt, acc =>
    match mapLookup shorts ['-', c] with
    | some hasarg =>
      if hasarg then
        if rest = [] then .ok (acc, true, ['-', c])
        else .error { Message := "option requires an argument".data, Opt := ['-', c] }
      else doCluster shorts rest emitopt (acc ++ [⟨['-', c], []⟩])
    | none =>
      .error { Message := "option not recognized".data, Opt := ['-', c],
               Unexpected := q ['-', c], Expected := "a short option".data }

/-- The short-option-cluster test in `GetOptSafe`:
`len(arg) >= 2 && arg[0] == '-' && arg[1] != '-'`. -/
def isCluster : Str → Bool
  | c0 :: c1 :: _ => c0 == '-' && c1 != '-'
  | _ => false

/-- The scanning loop of `GetOptSafe` from src/getopt.go, over the
remaining arguments, with the loop state (`skip`, `emitopt`, the
accumulated `optargs`) made explicit. -/
def scan (shorts longs : List (Str × Bool)) :
    List Str → Bool → Str → List OptArg → Except ParseError (List Str × List OptArg)
  | [], skip, emitopt, acc =>
    if skip then
      .error { Message := "option requires an argument".data, Opt := emitopt,
               Unexpected := "end of arguments".data,
               Expected := "an argument for an option".data }
    else .ok ([], acc)
  | arg :: rest, skip, emitopt, acc =>
    if arg = ['-', '-'] then
      if skip then
        .error { Message := "option requires an argument".data, Opt := emitopt,
                 Unexpected := q ['-', '-'] }
      else .ok (rest, acc)
    else if skip then
      if arg.head? = some '-' then
        .error { Message := "option requires an argument".data, Opt := emitopt,
                 Unexpected := "next option: ".data ++ q arg }
      else scan shorts longs rest false emitopt (acc ++ [⟨emitopt, arg⟩])
    else if isCluster arg then
      match doCluster shorts arg.tail emitopt acc with
      | .error e => .error e
      | .ok (acc', skip', emitopt') => scan shorts longs rest skip' emitopt' acc'
    else
      let r := long arg longs
      if r.found then
        match r.err with
        | some e => .error e
        | none =>
          if r.rarg ≠ [] then
            scan shorts longs rest false emitopt (acc ++ [⟨r.opt, r.rarg⟩])
          else if r.hasarg then scan shorts longs rest true r.opt acc
          else scan shorts longs rest false emitopt (acc ++ [⟨r.opt, []⟩])
      else if arg.head? = some '-' then
        .error { Message := "option not recognized".data, Opt := arg,
                 Unexpected := q arg, Expected := "a short or a long option".data }
      else .ok (arg :: rest, acc)

/-- `GetOptSafe` from src/getopt.go: compile both specifications, then
run the scanner. -/
def GetOptSafe (args : List Str) (shortopts : Str) (longopts : List Str) :
    GoResult (List Str × List OptArg) :=
  match build_shorts shortopts [] with
  | .error e => .err e
  | .ok shorts =>
    match build_longs longopts [] with
    | .err e => .err e
    | .panic m => .panic m
    | .ok longs =>
      match scan shorts longs args false [] [] with
      | .error e => .err e
      | .ok res => .ok res

/-- `GetOpt` from src/getopt.go: like `GetOptSafe`, but a returned
`ParseError` with `notUsersFault` set triggers `panic(err)`. -/
def GetOpt (args : List Str) (shortopts : Str) (longopts : List Str) :
    GoResult (List Str × List OptArg) :=
  match GetOptSafe args shortopts longopts with
  | .err e => if e.notUsersFault then .panic (some e) else .err e
  | r => r

/-- Lookup distributes over an appended table: the earlier bindings win. -/
theorem mapLookup_append (l1 l2 : List (Str × Bool)) (k : Str) :
    mapLookup (l1 ++ l2) k =
      match mapLookup l1 k with
      | some b => some b
      | none => mapLookup l2 k := by
  induction l1 with
  | nil => simp [mapLookup]
  | cons p rest ih =>
    obtain ⟨k', b⟩ := p
    by_cases h : k' = k <;> simp [mapLookup, h, ih]

/-- On a successful scan, the returned leftovers are a suffix of the scanned
tokens. -/
theorem scan_ok_suffix (shorts longs : List (Str × Bool)) :
    ∀ (args : List Str) (skip : Bool) (emitopt : Str) (acc : List OptArg)
      (l : List Str) (os : List OptArg),
      scan shorts longs args skip emitopt acc = .ok (l, os) → l <:+ args := by
  intro args
  induction args with
  | nil =>
    intro skip emitopt acc l os h
    cases skip
    · simp [scan] at h
      obtain ⟨rfl, -⟩ := h
      exact List.suffix_rfl
    · simp [scan] at h
  | cons a rest ih =>
    intro skip emitopt acc l os h
    simp only [scan] at h
    repeat' split at h
    all_goals
      first
        | exact (ih _ _ _ _ _ h).trans (List.suffix_cons _ _)
        | (simp only [Except.ok.injEq, Prod.mk.injEq] at h
           obtain ⟨rfl, -⟩ := h
           first
             | exact List.suffix_cons _ _
             | exact List.suffix_rfl)
        | simp at h

/-- In a table whose keys all start with a dash, a key that does not start
with a dash is absent. -/
theorem mapLookup_none_of_head (t : List (Str × Bool)) (k : Str)
    (hkeys : ∀ p ∈ t, ∃ r, p.1 = '-' :: r) (hk : k.head? ≠ some '-') :
    mapLookup t k = none := by
  induction t with
  | nil => rfl
  | cons p rest ih =>
    obtain ⟨k', b⟩ := p
    obtain ⟨r, hr⟩ : ∃ r, k' = '-' :: r := hkeys (k', b) (by simp)
    have hne : k' ≠ k := by
      rintro rfl
      exact hk (by rw [hr]; rfl)
    simp only [mapLookup, if_neg hne]
    exact ih (fun p hp => hkeys p (by simp [hp]))

/-- `long` finds nothing when the token does not start with a dash and every
table key starts with a dash. -/
theorem long_not_found (a : Str) (longs : List (Str × Bool))
    (hkeys : ∀ p ∈ longs, ∃ r, p.1 = '-' :: r) (h : a.head? ≠ some '-') :
    long a longs =
      { found := false, opt := [], rarg := [], hasarg := false, err := none } := by
  have hsplit : (splitEq a).1.head? ≠ some '-' := by
    cases a with
    | nil => simp [splitEq]
    | cons c cs =>
      by_cases hc : c = '='
      · simp [splitEq, hc]
      · simp only [splitEq, if_neg hc]
        simpa using h
  have hl : mapLookup longs (splitEq a).1 = none :=
    mapLookup_none_of_head longs (splitEq a).1 hkeys hsplit
  simp [long, hl]

/-- A token that does not start with a dash stops the scan: it and everything
after it come back verbatim as leftovers, and nothing more is emitted. -/
theorem scan_stops_at_positional (shorts longs : List (Str × Bool))
    (emitopt : Str) (acc : List OptArg) (a : Str) (rest : List Str)
    (hkeys : ∀ p ∈ longs, ∃ r, p.1 = '-' :: r) (h : a.head? ≠ some '-') :
    scan shorts longs (a :: rest) false emitopt acc = .ok (a :: rest, acc) := by
  have hdd : a ≠ ['-', '-'] := by rintro rfl; simp at h
  have hcl : isCluster a = false := by
    cases a with
    | nil => rfl
    | cons c0 cs =>
      cases cs with
      | nil => rfl
      | cons c1 cs' =>
        have hc0 : c0 ≠ '-' := by simpa using h
        simp [isCluster, hc0]
  have hlf : long a longs =
      { found := false, opt := [], rarg := [], hasarg := false, err := none } :=
    long_not_found a longs hkeys h
  simp [scan, hdd, hcl, hlf, h]

/-- Every key produced by `build_longs` starts with a dash (in fact with two;
one is all the scanner lemmas need). -/
theorem build_longs_keys (l : List Str) :
    ∀ (acc t : List (Str × Bool)),
      (∀ p ∈ acc, ∃ r, p.1 = '-' :: r) → build_longs l acc = .ok t →
      ∀ p ∈ t, ∃ r, p.1 = '-' :: r := by
  induction l with
  | nil =>
    intro acc t hacc h
    simp only [build_longs, GoResult.ok.injEq] at h
    exact h ▸ hacc
  | cons o rest ih =>
    intro acc t hacc h
    cases hlast : o.getLast? with
    | none => simp [build_longs, hlast] at h
    | some last =>
      simp only [build_longs, hlast] at h
      generalize (if last = '=' then o.dropLast else o) = stripped at h
      split at h
      · simp at h
      · refine ih _ _ ?_ h
        intro p hp
        rcases List.mem_append.mp hp with hp | hp
        · exact hacc p hp
        · simp only [List.mem_singleton] at hp
          subst hp
          exact ⟨_, rfl⟩

/-- Claim C1: `GetOptSafe` is claimed never to raise a fatal runtime fault for
any input, including malformed specifications such as an empty longopts entry.
The code refutes this: on the longopts entry `""`, `build_longs` evaluates
`opt[len(opt)-1]` with `len(opt) = 0`, an index-out-of-range runtime fault.
This theorem evaluates the code at that failing input. -/
theorem C1_empty_long_entry_is_runtime_fault :
    GetOptSafe [] [] [[]] = .panic none := by decide

/-- Claim C2: for a long flag declared without `=`, the token `--flag=v` is
claimed to fail with UnexpectedArgument ("option does not take an argument").
The code refutes this: `long` returns `found = false` together with that
error, so the caller takes the not-found branch and reports UnknownOption
("option not recognized") instead.  This theorem evaluates the code at the
spec's own scenario `args=["--flag=x"]`, `longSpec=["flag"]`. -/
theorem C2_inline_arg_on_noarg_long_is_unknown_option :
    GetOptSafe ["--flag=x".data] [] ["flag".data] =
      .err { Message := "option not recognized".data, Opt := "--flag=x".data,
             Unexpected := q ("--flag=x".data),
             Expected := "a short or a long option".data } := by decide

/-- Claim C3: parsing `["-h","-v","-x","asdf","-r","--flag=arg","--","-x","qwe"]`
with shortopts `"hvx:r"` and longopts `["help","flag="]` succeeds with
leftovers `["-x","qwe"]` and options, in encounter order,
`[(-h,""),(-v,""),(-x,"asdf"),(-r,""),(--flag,"arg")]`. -/
theorem C3_worked_example :
    GetOptSafe
      ["-h".data, "-v".data, "-x".data, "asdf".data, "-r".data, "--flag=arg".data,
       "--".data, "-x".data, "qwe".data]
      ("hvx:r".data) ["help".data, "flag=".data] =
    .ok (["-x".data, "qwe".data],
         [⟨"-h".data, []⟩, ⟨"-v".data, []⟩, ⟨"-x".data, "asdf".data⟩,
          ⟨"-r".data, []⟩, ⟨"--flag".data, "arg".data⟩]) := by decide

/-- Claim C4: when an argument is pending, the parse fails with
MissingArgument ("option requires an argument") exactly when the input is
exhausted or the next token begins with `-` (which includes `--`); in every
other case the next token is consumed as the pending flag's argument, the
parsed option is emitted, and the pending state is cleared. -/
theorem C4_pending_argument_step (shorts longs : List (Str × Bool))
    (emitopt : Str) (acc : List OptArg) (args : List Str) :
    ((args = [] ∨ ∃ a rest, args = a :: rest ∧ a.head? = some '-') →
      ∃ e, scan shorts longs args true emitopt acc = .error e ∧
        e.Message = "option requires an argument".data ∧ e.Opt = emitopt) ∧
    (∀ a rest, args = a :: rest → a.head? ≠ some '-' →
      scan shorts longs args true emitopt acc =
        scan shorts longs rest false emitopt (acc ++ [⟨emitopt, a⟩])) := by
  constructor
  · rintro (rfl | ⟨a, rest, rfl, hhead⟩)
    · refine ⟨{ Message := "option requires an argument".data, Opt := emitopt,
                Unexpected := "end of arguments".data,
                Expected := "an argument for an option".data }, ?_, rfl, rfl⟩
      simp [scan]
    · by_cases hdd : a = ['-', '-']
      · subst hdd
        refine ⟨{ Message := "option requires an argument".data, Opt := emitopt,
                  Unexpected := q ['-', '-'] }, ?_, rfl, rfl⟩
        simp [scan]
      · refine ⟨{ Message := "option requires an argument".data, Opt := emitopt,
                  Unexpected := "next option: ".data ++ q a }, ?_, rfl, rfl⟩
        simp [scan, hdd, hhead]
  · rintro a rest rfl hhead
    have hdd : a ≠ ['-', '-'] := by rintro rfl; simp at hhead
    simp [scan, hdd, hhead]

/-- Witness for C4, applied at concrete inputs: a pending `-x` followed by an
option-looking token fails, and followed by `foo` consumes it. -/
theorem C4_pending_argument_step_witness :
    (∃ e, scan [] [] ["-y".data] true ("-x".data) [] = .error e ∧
        e.Message = "option requires an argument".data ∧ e.Opt = "-x".data) ∧
    scan [] [] ["foo".data] true ("-x".data) [] =
      scan [] [] [] false ("-x".data) [⟨"-x".data, "foo".data⟩] :=
  ⟨(C4_pending_argument_step [] [] ("-x".data) [] ["-y".data]).1
      (Or.inr ⟨"-y".data, [], rfl, by decide⟩),
   (C4_pending_argument_step [] [] ("-x".data) [] ["foo".data]).2
      ("foo".data) [] rfl (by decide)⟩

/-- Claim C5: a `--` token reached with no argument pending terminates option
scanning; the returned leftovers are exactly the tokens after the `--`,
verbatim and in order, regardless of how option-like they look. -/
theorem C5_double_dash_terminates_scan (shorts longs : List (Str × Bool))
    (emitopt : Str) (acc : List OptArg) (rest : List Str) :
    scan shorts longs (['-', '-'] :: rest) false emitopt acc = .ok (rest, acc) := by
  simp [scan]

/-- Claim C6: on every successful parse the leftovers are a contiguous suffix
of the original argument sequence; scanning stops entirely at the first
positional token, which is returned verbatim with everything after it (shown
generally for the scanner state machine, whose long table — as built by
`build_longs` — only holds dash-prefixed keys); and the spec's scenario:
`["foo","-x"]` with shortopts `"x"` yields leftovers `["foo","-x"]` and no
options. -/
theorem C6_leftovers_are_stopping_suffix :
    (∀ (args : List Str) (so : Str) (lo : List Str) (l : List Str) (os : List OptArg),
       GetOptSafe args so lo = .ok (l, os) → l <:+ args) ∧
    (∀ (shorts longs : List (Str × Bool)) (emitopt : Str) (acc : List OptArg)
       (a : Str) (rest : List Str),
       (∀ p ∈ longs, ∃ r, p.1 = '-' :: r) → a.head? ≠ some '-' →
       scan shorts longs (a :: rest) false emitopt acc = .ok (a :: rest, acc)) ∧
    GetOptSafe ["foo".data, "-x".data] ("x".data) [] =
      .ok (["foo".data, "-x".data], []) := by
  refine ⟨?_, scan_stops_at_positional, by decide⟩
  intro args so lo l os h
  cases hbs : build_shorts so [] with
  | error e => simp [GetOptSafe, hbs] at h
  | ok shorts =>
    cases hbl : build_longs lo [] with
    | err e => simp [GetOptSafe, hbs, hbl] at h
    | panic m => simp [GetOptSafe, hbs, hbl] at h
    | ok longs =>
      cases hsc : scan shorts longs args false [] [] with
      | error e => simp [GetOptSafe, hbs, hbl, hsc] at h
      | ok res =>
        simp only [GetOptSafe, hbs, hbl, hsc, GoResult.ok.injEq] at h
        subst h
        exact scan_ok_suffix shorts longs args false [] [] l os hsc

/-- Witness for C6 at concrete inputs: a successful parse whose leftovers are
a suffix, and a positional token stopping the scan. -/
theorem C6_leftovers_are_stopping_suffix_witness :
    (["a".data] <:+ ["a".data]) ∧
    scan [] [] ["foo".data] false [] [] = .ok (["foo".data], []) :=
  ⟨C6_leftovers_are_stopping_suffix.1 ["a".data] [] [] ["a".data] [] (by decide),
   C6_leftovers_are_stopping_suffix.2.1 [] [] [] [] ("foo".data) [] (by simp)
     (by decide)⟩

/-- Cluster characters declared as taking no argument are emitted in order,
leaving the pending state alone. -/
theorem doCluster_append_noarg (shorts : List (Str × Bool)) (pre : List Char) :
    ∀ (rest : List Char) (emitopt : Str) (acc : List OptArg),
      (∀ d ∈ pre, mapLookup shorts ['-', d] = some false) →
      doCluster shorts (pre ++ rest) emitopt acc =
        doCluster shorts rest emitopt (acc ++ pre.map (fun d => ⟨['-', d], []⟩)) := by
  induction pre with
  | nil =>
    intro rest emitopt acc hpre
    simp
  | cons d pre' ih =>
    intro rest emitopt acc hpre
    have hd : mapLookup shorts ['-', d] = some false := hpre d (by simp)
    have step : doCluster shorts ((d :: pre') ++ rest) emitopt acc =
        doCluster shorts (pre' ++ rest) emitopt (acc ++ [⟨['-', d], []⟩]) := by
      simp [doCluster, hd]
    rw [step, ih rest emitopt _ (fun x hx => hpre x (by simp [hx]))]
    simp

/-- Dispatch of a short-option cluster token in the scanner: the token is
handed (without its leading dash) to the cluster loop. -/
theorem scan_cluster (shorts longs : List (Str × Bool)) (rs : List Str)
    (emitopt : Str) (acc : List OptArg) (chars : List Char)
    (hne : chars ≠ []) (hh : chars.head? ≠ some '-') :
    scan shorts longs (('-' :: chars) :: rs) false emitopt acc =
      match doCluster shorts chars emitopt acc with
      | .error e => .error e
      | .ok (acc', skip', emitopt') => scan shorts longs rs skip' emitopt' acc' := by
  obtain ⟨c, cs, rfl⟩ : ∃ c cs, chars = c :: cs := by
    cases chars with
    | nil => exact absurd rfl hne
    | cons c cs => exact ⟨c, cs, rfl⟩
  have hc : c ≠ '-' := by simpa using hh
  have hdd : ('-' :: c :: cs) ≠ ['-', '-'] := by
    intro hx
    injection hx with h1 h2
    injection h2 with h3 h4
    exact hc h3
  have hcl : isCluster ('-' :: c :: cs) = true := by simp [isCluster, hc]
  simp [scan, hdd, hcl]

/-- Claim C7: within a short-option cluster token, a declared argument-taking
flag causes MissingArgument ("option requires an argument") whenever it is
not the last character; as the last character it sets the pending-argument
state for the next token instead; and declared no-argument flags are emitted
immediately, in cluster order. -/
theorem C7_cluster_behaviour :
    (∀ (shorts longs : List (Str × Bool)) (rs : List Str) (emitopt : Str)
       (acc : List OptArg) (c : Char) (cs : List Char),
       c ≠ '-' →
       (∀ d ∈ c :: cs, mapLookup shorts ['-', d] = some false) →
       scan shorts longs (('-' :: c :: cs) :: rs) false emitopt acc =
         scan shorts longs rs false emitopt
           (acc ++ (c :: cs).map (fun d => ⟨['-', d], []⟩))) ∧
    (∀ (shorts longs : List (Str × Bool)) (rs : List Str) (emitopt : Str)
       (acc : List OptArg) (pre : List Char) (c : Char),
       (pre ++ [c]).head? ≠ some '-' →
       (∀ d ∈ pre, mapLookup shorts ['-', d] = some false) →
       mapLookup shorts ['-', c] = some true →
       scan shorts longs (('-' :: (pre ++ [c])) :: rs) false emitopt acc =
         scan shorts longs rs true ['-', c]
           (acc ++ pre.map (fun d => ⟨['-', d], []⟩))) ∧
    (∀ (shorts longs : List (Str × Bool)) (rs : List Str) (emitopt : Str)
       (acc : List OptArg) (pre : List Char) (c : Char) (d : Char) (suf : List Char),
       (pre ++ c :: d :: suf).head? ≠ some '-' →
       (∀ x ∈ pre, mapLookup shorts ['-', x] = some false) →
       mapLookup shorts ['-', c] = some true →
       scan shorts longs (('-' :: (pre ++ c :: d :: suf)) :: rs) false emitopt acc =
         .error { Message := "option requires an argument".data, Opt := ['-', c] }) := by
  refine ⟨?_, ?_, ?_⟩
  · intro shorts longs rs emitopt acc c cs hc hall
    rw [scan_cluster shorts longs rs emitopt acc (c :: cs) (by simp) (by simpa using hc)]
    have h1 : doCluster shorts (c :: cs) emitopt acc =
        .ok (acc ++ (c :: cs).map (fun d => ⟨['-', d], []⟩), false, emitopt) := by
      have h2 := doCluster_append_noarg shorts (c :: cs) [] emitopt acc hall
      simpa [doCluster] using h2
    rw [h1]
  · intro shorts longs rs emitopt acc pre c hh hpre hc
    rw [scan_cluster shorts longs rs emitopt acc (pre ++ [c]) (by simp) hh]
    have h1 : doCluster shorts (pre ++ [c]) emitopt acc =
        .ok (acc ++ pre.map (fun d => ⟨['-', d], []⟩), true, ['-', c]) := by
      rw [doCluster_append_noarg shorts pre [c] emitopt acc hpre]
      simp [doCluster, hc]
    rw [h1]
  · intro shorts longs rs emitopt acc pre c d suf hh hpre hc
    rw [scan_cluster shorts longs rs emitopt acc (pre ++ c :: d :: suf) (by simp) hh]
    have h1 : doCluster shorts (pre ++ c :: d :: suf) emitopt acc =
        .error { Message := "option requires an argument".data, Opt := ['-', c] } := by
      rw [doCluster_append_noarg shorts pre (c :: d :: suf) emitopt acc hpre]
      simp [doCluster, hc]
    rw [h1]

/-- Witness for C7 with the table declaring `-a` (no argument) and `-x`
(argument required): `-a` emits, `-ax` sets the pending state, `-xa` fails. -/
theorem C7_cluster_behaviour_witness :
    (scan [(['-', 'a'], false), (['-', 'x'], true)] [] [['-', 'a']] false [] [] =
       scan [(['-', 'a'], false), (['-', 'x'], true)] [] [] false []
         [⟨['-', 'a'], []⟩]) ∧
    (scan [(['-', 'a'], false), (['-', 'x'], true)] [] [['-', 'a', 'x']] false [] [] =
       scan [(['-', 'a'], false), (['-', 'x'], true)] [] [] true ['-', 'x']
         [⟨['-', 'a'], []⟩]) ∧
    (scan [(['-', 'a'], false), (['-', 'x'], true)] [] [['-', 'x', 'a']] false [] [] =
       .error { Message := "option requires an argument".data, Opt := ['-', 'x'] }) :=
  ⟨C7_cluster_behaviour.1 [(['-', 'a'], false), (['-', 'x'], true)] [] [] [] []
      'a' [] (by decide) (by decide),
   C7_cluster_behaviour.2.1 [(['-', 'a'], false), (['-', 'x'], true)] [] [] [] []
      ['a'] 'x' (by decide) (by decide) (by decide),
   C7_cluster_behaviour.2.2 [(['-', 'a'], false), (['-', 'x'], true)] [] [] [] []
      [] 'x' 'a' [] (by decide) (by decide) (by decide)⟩

/-- The table key that `build_longs` derives from a longopts entry: strip one
trailing `=`, then prefix `--`. -/
def longKey (o : Str) : Str :=
  '-' :: '-' :: (if o.getLast? = some '=' then o.dropLast else o)

theorem longKey_eq (o : Str) (last : Char) (h : o.getLast? = some last) :
    longKey o = '-' :: '-' :: (if last = '=' then o.dropLast else o) := by
  simp [longKey, h]

theorem getLast?_cons_ne_none (a : Char) (l : List Char) :
    (a :: l).getLast? ≠ none := by
  induction l generalizing a with
  | nil => simp
  | cons b l' ih =>
    rw [List.getLast?_cons_cons]
    exact ih b

/-- The only error `build_shorts` produces is the duplicate-declaration one,
marked as the programmer's fault. -/
theorem build_shorts_error_shape (s : Str) :
    ∀ (acc : List (Str × Bool)) (e : ParseError), build_shorts s acc = .error e →
      e.Message = "option specified more than once".data ∧ e.notUsersFault = true := by
  induction s with
  | nil => intro acc e h; simp [build_shorts] at h
  | cons c rest ih =>
    intro acc e h
    simp only [build_shorts] at h
    split at h
    · exact ih _ _ h
    · split at h
      · simp only [Except.error.injEq] at h
        subst h
        exact ⟨rfl, rfl⟩
      · exact ih _ _ h

/-- If `build_shorts` succeeds, no character it is yet to process is already
a key of the accumulated table. -/
theorem build_shorts_ok_lookout (s : Str) :
    ∀ (acc t : List (Str × Bool)), build_shorts s acc = .ok t →
      ∀ c ∈ s, c ≠ ':' → mapLookup acc ['-', c] = none := by
  induction s with
  | nil => intro acc t h c hc; simp at hc
  | cons a rest ih =>
    intro acc t h c hc hcne
    simp only [build_shorts] at h
    split at h
    · rename_i ha
      rcases List.mem_cons.mp hc with rfl | hc'
      · exact absurd ha hcne
      · exact ih _ _ h c hc' hcne
    · split at h
      · simp at h
      · rename_i ha hlk
        rcases List.mem_cons.mp hc with rfl | hc'
        · cases hx : mapLookup acc ['-', c] with
          | none => rfl
          | some b => rw [hx] at hlk; simp at hlk
        · have h2 := ih _ _ h c hc' hcne
          rw [mapLookup_append] at h2
          cases hx : mapLookup acc ['-', c] with
          | none => rfl
          | some b => rw [hx] at h2; simp at h2

/-- A successful `build_shorts` run means no non-colon character of the spec
was declared twice. -/
theorem build_shorts_ok_nodup (s : Str) :
    ∀ (acc t : List (Str × Bool)), build_shorts s acc = .ok t →
      (s.filter (fun c => c != ':')).Nodup := by
  induction s with
  | nil => intro acc t h; simp
  | cons a rest ih =>
    intro acc t h
    simp only [build_shorts] at h
    split at h
    · rename_i ha
      have h2 := ih _ _ h
      simpa [List.filter_cons, ha] using h2
    · split at h
      · simp at h
      · rename_i ha hlk
        have hnd := ih _ _ h
        have hmem : a ∉ rest.filter (fun c => c != ':') := by
          intro hmem
          have hmem' : a ∈ rest := (List.mem_filter.mp hmem).1
          have h2 := build_shorts_ok_lookout rest _ _ h a hmem' ha
          rw [mapLookup_append] at h2
          cases hx : mapLookup acc ['-', a] with
          | none => rw [hx] at h2; simp [mapLookup] at h2
          | some b => rw [hx] at h2; simp at h2
        simp only [List.filter_cons]
        rw [if_pos (by simpa using ha)]
        rw [List.nodup_cons]
        exact ⟨hmem, hnd⟩

/-- The only ordinary error `build_longs` produces is the
duplicate-declaration one, marked as the programmer's fault. -/
theorem build_longs_error_shape (l : List Str) :
    ∀ (acc : List (Str × Bool)) (e : ParseError), build_longs l acc = .err e →
      e.Message = "option specified more than once".data ∧ e.notUsersFault = true := by
  induction l with
  | nil => intro acc e h; simp [build_longs] at h
  | cons o rest ih =>
    intro acc e h
    cases hlast : o.getLast? with
    | none => simp [build_longs, hlast] at h
    | some last =>
      simp only [build_longs, hlast] at h
      generalize (if last = '=' then o.dropLast else o) = stripped at h
      split at h
      · simp only [GoResult.err.injEq] at h
        subst h
        exact ⟨rfl, rfl⟩
      · exact ih _ _ h

/-- `build_longs` cannot hit its runtime fault when every entry is
nonempty. -/
theorem build_longs_ne_panic (l : List Str) :
    ∀ (acc : List (Str × Bool)) (m : Option ParseError),
      (∀ o ∈ l, o ≠ []) → build_longs l acc ≠ .panic m := by
  induction l with
  | nil => intro acc m hne h; simp [build_longs] at h
  | cons o rest ih =>
    intro acc m hne h
    cases hlast : o.getLast? with
    | none =>
      cases o with
      | nil => exact hne [] (by simp) rfl
      | cons a os => exact getLast?_cons_ne_none a os hlast
    | some last =>
      simp only [build_longs, hlast] at h
      generalize (if last = '=' then o.dropLast else o) = stripped at h
      split at h
      · simp at h
      · exact ih _ m (fun x hx => hne x (by simp [hx])) h

/-- If `build_longs` succeeds, no key of an entry it is yet to process is
already in the accumulated table. -/
theorem build_longs_ok_lookout (l : List Str) :
    ∀ (acc t : List (Str × Bool)), build_longs l acc = .ok t →
      ∀ o ∈ l, mapLookup acc (longKey o) = none := by
  induction l with
  | nil => intro acc t h o ho; simp at ho
  | cons a rest ih =>
    intro acc t h o ho
    cases hlast : a.getLast? with
    | none => simp [build_longs, hlast] at h
    | some last =>
      simp only [build_longs, hlast] at h
      generalize hs : (if last = '=' then a.dropLast else a) = stripped at h
      have hkey : longKey a = '-' :: '-' :: stripped := by
        rw [longKey_eq a last hlast, hs]
      split at h
      · simp at h
      · rename_i hlk
        rcases List.mem_cons.mp ho with rfl | ho'
        · rw [hkey]
          cases hx : mapLookup acc ('-' :: '-' :: stripped) with
          | none => rfl
          | some b => rw [hx] at hlk; simp at hlk
        · have h2 := ih _ _ h o ho'
          rw [mapLookup_append] at h2
          cases hx : mapLookup acc (longKey o) with
          | none => rfl
          | some b => rw [hx] at h2; simp at h2

/-- A successful `build_longs` run means no two entries shared a key. -/
theorem build_longs_ok_nodup (l : List Str) :
    ∀ (acc t : List (Str × Bool)), build_longs l acc = .ok t →
      (l.map longKey).Nodup := by
  induction l with
  | nil => intro acc t h; simp
  | cons a rest ih =>
    intro acc t h
    cases hlast : a.getLast? with
    | none => simp [build_longs, hlast] at h
    | some last =>
      simp only [build_longs, hlast] at h
      generalize hs : (if last = '=' then a.dropLast else a) = stripped at h
      have hkey : longKey a = '-' :: '-' :: stripped := by
        rw [longKey_eq a last hlast, hs]
      split at h
      · simp at h
      · have hnd := ih _ _ h
        have hmem : longKey a ∉ rest.map longKey := by
          intro hmem
          obtain ⟨o, ho, heq⟩ := List.mem_map.mp hmem
          have h2 := build_longs_ok_lookout rest _ _ h o ho
          rw [mapLookup_append, heq, hkey] at h2
          cases hx : mapLookup acc ('-' :: '-' :: stripped) with
          | none => rw [hx] at h2; simp [mapLookup] at h2
          | some b => rw [hx] at h2; simp at h2
        rw [List.map_cons, List.nodup_cons]
        exact ⟨hmem, hnd⟩

/-- Claim C8 counterexample: the longopts `["", "x", "x"]` declare the same
flag twice, yet compilation does not fail with DuplicateOption — the empty
entry raises the index-out-of-range runtime fault first. -/
theorem C8_counterexample_empty_entry_preempts_duplicate :
    GetOptSafe [] [] [[], ['x'], ['x']] = .panic none := by decide

/-- Claim C8 (amended): declaring the same non-colon character twice in the
short spec, or two longopts entries with the same key (after `=` stripping
and `--` prefixing) — provided every longopts entry is nonempty, since an
empty entry raises a runtime fault before the duplicate check — always makes
`GetOptSafe` fail with the DuplicateOption error ("option specified more than
once", marked as the programmer's fault), returning no partial result. -/
theorem C8_amended_duplicates :
    (∀ (args : List Str) (so : Str) (lo : List Str) (u : Str) (c : Char) (v w : Str),
       so = u ++ c :: v ++ c :: w → c ≠ ':' →
       ∃ e, GetOptSafe args so lo = .err e ∧
         e.Message = "option specified more than once".data ∧
         e.notUsersFault = true) ∧
    (∀ (args : List Str) (so : Str) (lo : List Str) (u : List Str) (x : Str)
       (v : List Str) (y : Str) (w : List Str),
       lo = u ++ x :: v ++ y :: w → longKey x = longKey y →
       (∀ o ∈ lo, o ≠ []) →
       ∃ e, GetOptSafe args so lo = .err e ∧
         e.Message = "option specified more than once".data ∧
         e.notUsersFault = true) := by
  constructor
  · intro args so lo u c v w hso hc
    cases hbs : build_shorts so [] with
    | error e =>
      refine ⟨e, ?_, build_shorts_error_shape so [] e hbs⟩
      simp [GetOptSafe, hbs]
    | ok shorts =>
      exfalso
      have hnd := build_shorts_ok_nodup so [] shorts hbs
      rw [hso] at hnd
      have hcb : (c != ':') = true := by simpa using hc
      simp only [List.filter_append, List.filter_cons, hcb, if_pos] at hnd
      have hcount := List.nodup_iff_count_le_one.mp hnd c
      simp [List.count_append, List.count_cons] at hcount
      omega
  · intro args so lo u x v y w hlo hxy hne
    cases hbs : build_shorts so [] with
    | error e =>
      refine ⟨e, ?_, build_shorts_error_shape so [] e hbs⟩
      simp [GetOptSafe, hbs]
    | ok shorts =>
      cases hbl : build_longs lo [] with
      | err e =>
        refine ⟨e, ?_, build_longs_error_shape lo [] e hbl⟩
        simp [GetOptSafe, hbs, hbl]
      | panic m => exact absurd hbl (build_longs_ne_panic lo [] m hne)
      | ok longs =>
        exfalso
        have hnd := build_longs_ok_nodup lo [] longs hbl
        rw [hlo] at hnd
        have hcount := List.nodup_iff_count_le_one.mp hnd (longKey y)
        simp [List.count_append, List.count_cons, hxy] at hcount
        omega

/-- Witness for C8 (amended): the duplicate short spec `"xx"`, and the
longopts `["x", "x="]`, whose entries share the key `--x`. -/
theorem C8_amended_duplicates_witness :
    (∃ e, GetOptSafe [] ("xx".data) [] = .err e ∧
       e.Message = "option specified more than once".data ∧
       e.notUsersFault = true) ∧
    (∃ e, GetOptSafe [] [] ["x".data, "x=".data] = .err e ∧
       e.Message = "option specified more than once".data ∧
       e.notUsersFault = true) :=
  ⟨C8_amended_duplicates.1 [] ("xx".data) [] [] 'x' [] [] (by decide) (by decide),
   C8_amended_duplicates.2 [] [] ["x".data, "x=".data] [] ("x".data) [] ("x=".data) []
     (by decide) (by decide) (by decide)⟩

/-- Every error the cluster loop produces is a user-input error: never the
duplicate-declaration message, never the programmer's fault. -/
theorem doCluster_error_shape (shorts : List (Str × Bool)) :
    ∀ (chars : List Char) (emitopt : Str) (acc : List OptArg) (e : ParseError),
      doCluster shorts chars emitopt acc = .error e →
      e.notUsersFault = false ∧
      e.Message ≠ "option specified more than once".data := by
  intro chars
  induction chars with
  | nil => intro emitopt acc e h; simp [doCluster] at h
  | cons c rest ih =>
    intro emitopt acc e h
    cases hx : mapLookup shorts ['-', c] with
    | none =>
      simp only [doCluster, hx, Except.error.injEq] at h
      subst h
      refine ⟨rfl, ?_⟩
      dsimp only
      decide
    | some hasarg =>
      simp only [doCluster, hx] at h
      split at h
      · split at h
        · simp at h
        · simp only [Except.error.injEq] at h
          subst h
          refine ⟨rfl, ?_⟩
          dsimp only
          decide
      · exact ih _ _ _ h

/-- The error field of a `long` result is either absent or the
does-not-take-an-argument error. -/
theorem long_err_cases (a : Str) (longs : List (Str × Bool)) :
    (long a longs).err = none ∨
    ∃ p2, (long a longs).err =
      some { Message := "option does not take an argument".data,
             Opt := (splitEq a).1, Unexpected := q p2 } := by
  cases hx : mapLookup longs (splitEq a).1 with
  | none => exact Or.inl (by simp [long, hx])
  | some hasarg =>
    by_cases hcond : hasarg = false ∧ (splitEq a).2 ≠ []
    · exact Or.inr ⟨(splitEq a).2, by simp [long, hx, hcond]⟩
    · exact Or.inl (by simp [long, hx, hcond])

/-- Any error surfaced through `long` is a user-input error. -/
theorem long_err_shape (a : Str) (longs : List (Str × Bool)) :
    ∀ e, (long a longs).err = some e →
      e.notUsersFault = false ∧
      e.Message ≠ "option specified more than once".data := by
  intro e h
  rcases long_err_cases a longs with hc | ⟨p2, hc⟩
  · rw [hc] at h; simp at h
  · rw [hc] at h
    simp only [Option.some.injEq] at h
    subst h
    refine ⟨rfl, ?_⟩
    dsimp only
    decide

/-- Every error the scanner produces is a user-input error: never the
duplicate-declaration message, never the programmer's fault. -/
theorem scan_error_shape (shorts longs : List (Str × Bool)) :
    ∀ (args : List Str) (skip : Bool) (emitopt : Str) (acc : List OptArg)
      (e : ParseError), scan shorts longs args skip emitopt acc = .error e →
      e.notUsersFault = false ∧
      e.Message ≠ "option specified more than once".data := by
  intro args
  induction args with
  | nil =>
    intro skip emitopt acc e h
    cases skip
    · simp [scan] at h
    · have h2 : scan shorts longs [] true emitopt acc =
          .error { Message := "option requires an argument".data, Opt := emitopt,
                   Unexpected := "end of arguments".data,
                   Expected := "an argument for an option".data } := by
        simp [scan]
      have h3 := h2.symm.trans h
      simp only [Except.error.injEq] at h3
      subst h3
      refine ⟨rfl, ?_⟩
      dsimp only
      decide
  | cons a rest ih =>
    intro skip emitopt acc e h
    simp only [scan] at h
    repeat' split at h
    all_goals first
      | exact ih _ _ _ _ h
      | (simp only [Except.error.injEq] at h
         subst h
         first
           | (refine ⟨rfl, ?_⟩
              dsimp only
              decide)
           | exact doCluster_error_shape shorts _ _ _ _ (by assumption)
           | exact long_err_shape a longs _ (by assumption))
      | simp at h

/-- Claim C9: every error returned by `GetOptSafe` is queryable as an
authoring defect or a user-input error, and the partition is exact: an error
is marked `notUsersFault` exactly when it is the DuplicateOption error
("option specified more than once"), and `GetOpt` escalates exactly the
marked errors to a fatal panic, returning all others as ordinary values. -/
theorem C9_error_partition :
    ∀ (args : List Str) (so : Str) (lo : List Str) (e : ParseError),
      GetOptSafe args so lo = .err e →
      (e.notUsersFault = true ↔
        e.Message = "option specified more than once".data) ∧
      GetOpt args so lo =
        (if e.notUsersFault then .panic (some e) else .err e) := by
  intro args so lo e h
  refine ⟨?_, by simp [GetOpt, h]⟩
  cases hbs : build_shorts so [] with
  | error e1 =>
    simp only [GetOptSafe, hbs, GoResult.err.injEq] at h
    subst h
    obtain ⟨hm, hf⟩ := build_shorts_error_shape so [] e1 hbs
    simp [hm, hf]
  | ok shorts =>
    cases hbl : build_longs lo [] with
    | err e1 =>
      simp only [GetOptSafe, hbs, hbl, GoResult.err.injEq] at h
      subst h
      obtain ⟨hm, hf⟩ := build_longs_error_shape lo [] e1 hbl
      simp [hm, hf]
    | panic m => simp [GetOptSafe, hbs, hbl] at h
    | ok longs =>
      cases hsc : scan shorts longs args false [] [] with
      | ok res => simp [GetOptSafe, hbs, hbl, hsc] at h
      | error e1 =>
        simp only [GetOptSafe, hbs, hbl, hsc, GoResult.err.injEq] at h
        subst h
        obtain ⟨hf, hm⟩ := scan_error_shape shorts longs args false [] [] e1 hsc
        simp [hm, hf]

/-- Witness for C9 at the concrete input `args=["-z"]`, shortopts `"x"`: the
UnknownOption error is not marked as the programmer's fault and `GetOpt`
returns it as an ordinary value. -/
theorem C9_error_partition_witness :
    (({ Message := "option not recognized".data, Opt := ['-', 'z'],
        Unexpected := q ['-', 'z'],
        Expected := "a short option".data } : ParseError).notUsersFault = true ↔
      ({ Message := "option not recognized".data, Opt := ['-', 'z'],
         Unexpected := q ['-', 'z'],
         Expected := "a short option".data } : ParseError).Message =
        "option specified more than once".data) ∧
    GetOpt ["-z".data] ("x".data) [] =
      (if ({ Message := "option not recognized".data, Opt := ['-', 'z'],
             Unexpected := q ['-', 'z'],
             Expected := "a short option".data } : ParseError).notUsersFault then
        .panic (some { Message := "option not recognized".data, Opt := ['-', 'z'],
                       Unexpected := q ['-', 'z'],
                       Expected := "a short option".data })
      else
        .err { Message := "option not recognized".data, Opt := ['-', 'z'],
               Unexpected := q ['-', 'z'],
               Expected := "a short option".data }) :=
  C9_error_partition ["-z".data] ("x".data) []
    { Message := "option not recognized".data, Opt := ['-', 'z'],
      Unexpected := q ['-', 'z'], Expected := "a short option".data }
    (by decide)

/-- A successful lookup exhibits a member of the table. -/
theorem mapLookup_mem (t : List (Str × Bool)) (k : Str) (b : Bool)
    (h : mapLookup t k = some b) : (k, b) ∈ t := by
  induction t with
  | nil => simp [mapLookup] at h
  | cons p rest ih =>
    obtain ⟨k', b'⟩ := p
    by_cases hk : k' = k
    · subst hk
      simp [mapLookup] at h
      subst h
      simp
    · simp only [mapLookup, if_neg hk] at h
      simp [ih h]

/-- Each binding of a table built by `build_shorts` comes from an occurrence
of its (non-colon) character in the spec, with the argument flag determined
by the following character. -/
theorem build_shorts_mem (s : Str) :
    ∀ (acc t : List (Str × Bool)), build_shorts s acc = .ok t →
      ∀ p ∈ t, p ∈ acc ∨
        ∃ u c v, s = u ++ c :: v ∧ c ≠ ':' ∧ p.1 = ['-', c] ∧
          p.2 = decide (v.head? = some ':') := by
  induction s with
  | nil =>
    intro acc t h p hp
    simp only [build_shorts, Except.ok.injEq] at h
    subst h
    exact Or.inl hp
  | cons a rest ih =>
    intro acc t h p hp
    simp only [build_shorts] at h
    split at h
    · rename_i ha
      rcases ih _ _ h p hp with hmem | ⟨u, c, v, hrest, hc, hp1, hp2⟩
      · exact Or.inl hmem
      · exact Or.inr ⟨a :: u, c, v, by simp [hrest], hc, hp1, hp2⟩
    · split at h
      · simp at h
      · rename_i ha hlk
        rcases ih _ _ h p hp with hmem | ⟨u, c, v, hrest, hc, hp1, hp2⟩
        · rcases List.mem_append.mp hmem with hmem' | hmem'
          · exact Or.inl hmem'
          · simp only [List.mem_singleton] at hmem'
            subst hmem'
            exact Or.inr ⟨[], a, rest, rfl, ha, rfl, rfl⟩
        · exact Or.inr ⟨a :: u, c, v, by simp [hrest], hc, hp1, hp2⟩

/-- Each binding of a table built by `build_longs` comes from a longopts
entry: its key is the entry's `=`-stripped, `--`-prefixed name and its flag
records whether the entry ended in `=`. -/
theorem build_longs_mem (l : List Str) :
    ∀ (acc t : List (Str × Bool)), build_longs l acc = .ok t →
      ∀ p ∈ t, p ∈ acc ∨
        ∃ en, en ∈ l ∧ p.1 = longKey en ∧
          p.2 = decide (en.getLast? = some '=') := by
  induction l with
  | nil =>
    intro acc t h p hp
    simp only [build_longs, GoResult.ok.injEq] at h
    subst h
    exact Or.inl hp
  | cons a rest ih =>
    intro acc t h p hp
    cases hlast : a.getLast? with
    | none => simp [build_longs, hlast] at h
    | some last =>
      simp only [build_longs, hlast] at h
      generalize hs : (if last = '=' then a.dropLast else a) = stripped at h
      have hkey : longKey a = '-' :: '-' :: stripped := by
        rw [longKey_eq a last hlast, hs]
      have hdec : decide (a.getLast? = some '=') = decide (last = '=') := by
        rw [hlast]
        simp
      split at h
      · simp at h
      · rcases ih _ _ h p hp with hmem | ⟨en, hen, hp1, hp2⟩
        · rcases List.mem_append.mp hmem with hmem' | hmem'
          · exact Or.inl hmem'
          · simp only [List.mem_singleton] at hmem'
            subst hmem'
            refine Or.inr ⟨a, by simp, ?_, ?_⟩
            · rw [hkey]
            · rw [hdec]
        · exact Or.inr ⟨en, by simp [hen], hp1, hp2⟩

/-- What a successful cluster step guarantees: new options are declared
no-argument flags carrying the empty argument; a set pending flag is declared
argument-taking; an unset pending flag leaves `emitopt` unchanged. -/
theorem doCluster_ok (shorts : List (Str × Bool)) :
    ∀ (chars : List Char) (emitopt : Str) (acc acc' : List OptArg)
      (skip' : Bool) (emitopt' : Str),
      doCluster shorts chars emitopt acc = .ok (acc', skip', emitopt') →
      (∀ o ∈ acc', o ∈ acc ∨
         (o.Argument = [] ∧ mapLookup shorts o.Option = some false)) ∧
      (skip' = true → mapLookup shorts emitopt' = some true) ∧
      (skip' = false → emitopt' = emitopt) := by
  intro chars
  induction chars with
  | nil =>
    intro emitopt acc acc' skip' emitopt' h
    simp only [doCluster, Except.ok.injEq, Prod.mk.injEq] at h
    obtain ⟨rfl, rfl, rfl⟩ := h
    exact ⟨fun o ho => Or.inl ho, fun hs => absurd hs (by decide), fun _ => rfl⟩
  | cons c rest ih =>
    intro emitopt acc acc' skip' emitopt' h
    cases hx : mapLookup shorts ['-', c] with
    | none => simp [doCluster, hx] at h
    | some hasarg =>
      simp only [doCluster, hx] at h
      split at h
      · rename_i hhas
        split at h
        · simp only [Except.ok.injEq, Prod.mk.injEq] at h
          obtain ⟨rfl, rfl, rfl⟩ := h
          refine ⟨fun o ho => Or.inl ho, fun _ => ?_, fun hs => absurd hs (by decide)⟩
          rw [hx, hhas]
        · simp at h
      · rename_i hhas
        have hf : hasarg = false := by simpa using hhas
        obtain ⟨hA, hB, hC⟩ := ih emitopt (acc ++ [⟨['-', c], []⟩]) acc' skip' emitopt' h
        refine ⟨?_, hB, hC⟩
        intro o ho
        rcases hA o ho with hmem | hno
        · rcases List.mem_append.mp hmem with hm | hm
          · exact Or.inl hm
          · simp only [List.mem_singleton] at hm
            subst hm
            refine Or.inr ⟨rfl, ?_⟩
            rw [hx, hf]
        · exact Or.inr hno

/-- What `long` guarantees when it reports `found`: no error, the returned
option is a key of the table with the returned argument flag, and an inline
argument forces the flag to be argument-taking. -/
theorem long_found (a : Str) (longs : List (Str × Bool))
    (h : (long a longs).found = true) :
    (long a longs).err = none ∧
    mapLookup longs (long a longs).opt = some (long a longs).hasarg ∧
    ((long a longs).rarg ≠ [] → (long a longs).hasarg = true) := by
  cases hx : mapLookup longs (splitEq a).1 with
  | none => simp [long, hx] at h
  | some hasarg =>
    by_cases hcond : hasarg = false ∧ (splitEq a).2 ≠ []
    · simp [long, hx, hcond] at h
    · have hrec : long a longs =
          { found := true, opt := (splitEq a).1, rarg := (splitEq a).2,
            hasarg := hasarg, err := none } := by
        simp [long, hx, hcond]
      rw [hrec]
      refine ⟨rfl, hx, ?_⟩
      intro hne
      cases hasarg with
      | false => exact absurd ⟨rfl, hne⟩ hcond
      | true => rfl

/-- The scanner's output invariant: every option it emits is a key of one of
the two tables, and carries a nonempty argument only if that key is marked
argument-taking. -/
theorem scan_ok_opts (shorts longs : List (Str × Bool)) :
    ∀ (args : List Str) (skip : Bool) (emitopt : Str) (acc : List OptArg)
      (l : List Str) (os : List OptArg),
      (skip = true → mapLookup shorts emitopt = some true ∨
        mapLookup longs emitopt = some true) →
      (∀ o ∈ acc, ∃ b, (mapLookup shorts o.Option = some b ∨
          mapLookup longs o.Option = some b) ∧ (o.Argument ≠ [] → b = true)) →
      scan shorts longs args skip emitopt acc = .ok (l, os) →
      ∀ o ∈ os, ∃ b, (mapLookup shorts o.Option = some b ∨
          mapLookup longs o.Option = some b) ∧ (o.Argument ≠ [] → b = true) := by
  intro args
  induction args with
  | nil =>
    intro skip emitopt acc l os hskip hacc h
    cases skip
    · simp [scan] at h
      obtain ⟨-, rfl⟩ := h
      exact hacc
    · simp [scan] at h
  | cons a rest ih =>
    intro skip emitopt acc l os hskip hacc h
    by_cases hdd : a = ['-', '-']
    · subst hdd
      cases skip
      · simp [scan] at h
        obtain ⟨-, rfl⟩ := h
        exact hacc
      · simp [scan] at h
    · cases skip
      · by_cases hcl : isCluster a = true
        · cases hdo : doCluster shorts a.tail emitopt acc with
          | error e => simp [scan, hdd, hcl, hdo] at h
          | ok res =>
            obtain ⟨acc', skip', emitopt'⟩ := res
            have h2 : scan shorts longs rest skip' emitopt' acc' = .ok (l, os) := by
              simpa [scan, hdd, hcl, hdo] using h
            obtain ⟨hA, hB, hC⟩ :=
              doCluster_ok shorts a.tail emitopt acc acc' skip' emitopt' hdo
            refine ih skip' emitopt' acc' l os (fun hs => Or.inl (hB hs)) ?_ h2
            intro o ho
            rcases hA o ho with hm | ⟨harg, hlk⟩
            · exact hacc o hm
            · exact ⟨false, Or.inl hlk, fun hne => absurd harg hne⟩
        · cases hf : (long a longs).found with
          | false =>
            by_cases hh : a.head? = some '-'
            · simp [scan, hdd, hcl, hf, hh] at h
            · have h2 := h
              simp only [scan] at h2
              rw [if_neg hdd] at h2
              simp only [Bool.false_eq_true, if_false, hcl, hf, if_neg hh] at h2
              simp only [Except.ok.injEq, Prod.mk.injEq] at h2
              obtain ⟨-, rfl⟩ := h2
              exact hacc
          | true =>
            obtain ⟨herr, hlk, himp⟩ := long_found a longs hf
            by_cases hra : (long a longs).rarg = []
            · cases hha : (long a longs).hasarg with
              | true =>
                have h2 : scan shorts longs rest true (long a longs).opt acc =
                    .ok (l, os) := by
                  simpa [scan, hdd, hcl, hf, herr, hra, hha] using h
                refine ih true (long a longs).opt acc l os ?_ hacc h2
                intro _
                right
                rw [← hha]
                exact hlk
              | false =>
                have h2 : scan shorts longs rest false emitopt
                    (acc ++ [⟨(long a longs).opt, []⟩]) = .ok (l, os) := by
                  simpa [scan, hdd, hcl, hf, herr, hra, hha] using h
                refine ih false emitopt _ l os (fun hs => absurd hs (by decide)) ?_ h2
                intro o ho
                rcases List.mem_append.mp ho with hm | hm
                · exact hacc o hm
                · simp only [List.mem_singleton] at hm
                  subst hm
                  exact ⟨(long a longs).hasarg, Or.inr hlk, fun hne => absurd rfl hne⟩
            · have h2 : scan shorts longs rest false emitopt
                  (acc ++ [⟨(long a longs).opt, (long a longs).rarg⟩]) = .ok (l, os) := by
                simpa [scan, hdd, hcl, hf, herr, hra] using h
              refine ih false emitopt _ l os (fun hs => absurd hs (by decide)) ?_ h2
              intro o ho
              rcases List.mem_append.mp ho with hm | hm
              · exact hacc o hm
              · simp only [List.mem_singleton] at hm
                subst hm
                exact ⟨(long a longs).hasarg, Or.inr hlk, fun _ => himp hra⟩
      · by_cases hh : a.head? = some '-'
        · simp [scan, hdd, hh] at h
        · have h2 : scan shorts longs rest false emitopt (acc ++ [⟨emitopt, a⟩]) =
              .ok (l, os) := by
            simpa [scan, hdd, hh] using h
          refine ih false emitopt _ l os (fun hs => absurd hs (by decide)) ?_ h2
          intro o ho
          rcases List.mem_append.mp ho with hm | hm
          · exact hacc o hm
          · simp only [List.mem_singleton] at hm
            subst hm
            rcases hskip rfl with hlk | hlk
            · exact ⟨true, Or.inl hlk, fun _ => rfl⟩
            · exact ⟨true, Or.inr hlk, fun _ => rfl⟩

/-- Claim C10: on every successful parse, each returned OptArg's Option token
was actually declared — `-c` for an occurrence of a non-colon character `c`
of shortopts (with the argument flag given by whether the next spec character
is a colon), or the `--`-prefixed, `=`-stripped key of a longopts entry — and
its Argument is a nonempty string only if that declaration is argument-taking
(so flags declared without an argument always come back with the empty
Argument). -/
theorem C10_options_declared :
    ∀ (args : List Str) (so : Str) (lo : List Str) (l : List Str) (os : List OptArg),
      GetOptSafe args so lo = .ok (l, os) →
      ∀ o ∈ os, ∃ b : Bool,
        ((∃ u c v, so = u ++ c :: v ∧ c ≠ ':' ∧ o.Option = ['-', c] ∧
            b = decide (v.head? = some ':')) ∨
         (∃ en, en ∈ lo ∧ o.Option = longKey en ∧
            b = decide (en.getLast? = some '='))) ∧
        (o.Argument ≠ [] → b = true) := by
  intro args so lo l os h o ho
  cases hbs : build_shorts so [] with
  | error e => simp [GetOptSafe, hbs] at h
  | ok shorts =>
    cases hbl : build_longs lo [] with
    | err e => simp [GetOptSafe, hbs, hbl] at h
    | panic m => simp [GetOptSafe, hbs, hbl] at h
    | ok longs =>
      cases hsc : scan shorts longs args false [] [] with
      | error e => simp [GetOptSafe, hbs, hbl, hsc] at h
      | ok res =>
        simp only [GetOptSafe, hbs, hbl, hsc, GoResult.ok.injEq] at h
        subst h
        obtain ⟨b, hlk, himp⟩ :=
          scan_ok_opts shorts longs args false [] [] l os
            (fun hs => absurd hs (by decide)) (by simp) hsc o ho
        refine ⟨b, ?_, himp⟩
        rcases hlk with hlk | hlk
        · have hmem := mapLookup_mem shorts o.Option b hlk
          rcases build_shorts_mem so [] shorts hbs (o.Option, b) hmem with
            hm | ⟨u, c, v, h1, h2, h3, h4⟩
          · simp at hm
          · exact Or.inl ⟨u, c, v, h1, h2, h3, h4⟩
        · have hmem := mapLookup_mem longs o.Option b hlk
          rcases build_longs_mem lo [] longs hbl (o.Option, b) hmem with
            hm | ⟨en, h1, h2, h3⟩
          · simp at hm
          · exact Or.inr ⟨en, h1, h2, h3⟩

/-- Witness for C10: parsing `["-h"]` with shortopts `"h"` emits `(-h, "")`,
whose Option is declared and whose Argument is empty. -/
theorem C10_options_declared_witness :
    ∃ b : Bool,
      ((∃ u c v, "h".data = u ++ c :: v ∧ c ≠ ':' ∧
          (⟨['-', 'h'], []⟩ : OptArg).Option = ['-', c] ∧
          b = decide (v.head? = some ':')) ∨
       (∃ en, en ∈ ([] : List Str) ∧
          (⟨['-', 'h'], []⟩ : OptArg).Option = longKey en ∧
          b = decide (en.getLast? = some '='))) ∧
      ((⟨['-', 'h'], []⟩ : OptArg).Argument ≠ [] → b = true) :=
  C10_options_declared ["-h".data] ("h".data) [] [] [⟨['-', 'h'], []⟩]
    (by decide) ⟨['-', 'h'], []⟩ (by simp)

end Getopt
